import Mathlib

/-!
Verification of the file-patching script `fix.py`.

The script defines a single function `finalize_retry_fix` that, when the
hard-coded path `tests\test_ky_http.rs` exists, reads the file's text,
performs five sequential literal substring replacements
(`str.replace`, which replaces every non-overlapping occurrence,
scanning left to right), writes the result back to the same path, and
prints a message.  When the path does not exist it does nothing.

The embedding models file contents as `List Char`, the filesystem as a
map `String → Option (List Char)`, and the run as a `RunResult` that
records the resulting filesystem together with the reads, writes and
prints that were performed.
-/

set_option maxHeartbeats 1000000

namespace FixScript

/-- Python's `str.replace(pat, rep)`: replace every non-overlapping
occurrence of `pat` by `rep`, scanning left to right.  For the empty
pattern, Python inserts `rep` at every boundary, including the ends. -/
def replaceAll (pat rep : List Char) (s : List Char) : List Char :=
  match s with
  | [] => if pat = [] then rep else []
  | c :: rest =>
    if h : pat ≠ [] ∧ pat <+: (c :: rest) then
      rep ++ replaceAll pat rep ((c :: rest).drop pat.length)
    else if pat = [] then
      rep ++ (c :: replaceAll pat rep rest)
    else
      c :: replaceAll pat rep rest
termination_by s.length
decreasing_by
  · have hp : 0 < pat.length := List.length_pos.mpr h.1
    simp [List.length_drop]
    omega
  · simp
  · simp

/-- Source line 5: the hard-coded target path `tests\test_ky_http.rs`. -/
def test_path : String := "tests\\test_ky_http.rs"

/-- Source line 11, pattern: the literal `opts.retry = 7;`. -/
def retry7 : List Char := "opts.retry = 7;".data

/-- Source line 12, pattern: the literal `opts.retry = 6;`. -/
def retry6 : List Char := "opts.retry = 6;".data

/-- Source line 13, pattern: the literal `opts.retry = 5;`. -/
def retry5 : List Char := "opts.retry = 5;".data

/-- Source lines 11-13, replacement: the literal `opts.retry = 10;`. -/
def retry10 : List Char := "opts.retry = 10;".data

/-- Source line 16, pattern: the literal `let _concurrent =`. -/
def underscoreConcurrent : List Char := "let _concurrent =".data

/-- Source line 16, replacement: the literal `let concurrent =`. -/
def concurrentOk : List Char := "let concurrent =".data

/-- Source line 17, pattern: the literal `let _max_seen =`. -/
def underscoreMaxSeen : List Char := "let _max_seen =".data

/-- Source line 17, replacement: the literal `let max_seen =`. -/
def maxSeenOk : List Char := "let max_seen =".data

/-- Source lines 11-17: the five replacements applied in program order
to the file content (the chain of `new_content` assignments). -/
def finalize_content (content : List Char) : List Char :=
  let new_content := replaceAll retry7 retry10 content
  let new_content := replaceAll retry6 retry10 new_content
  let new_content := replaceAll retry5 retry10 new_content
  let new_content := replaceAll underscoreConcurrent concurrentOk new_content
  let new_content := replaceAll underscoreMaxSeen maxSeenOk new_content
  new_content

/-- The observable outcome of one run of the script: the final
filesystem together with the reads, writes and prints performed. -/
structure RunResult where
  files : String → Option (List Char)
  reads : List String
  writes : List (String × List Char)
  printed : List String

/-- Source lines 4-20: `finalize_retry_fix`.  If `test_path` exists,
read it, apply the five replacements, write the result back to the same
path and print a message; otherwise do nothing at all. -/
def finalize_retry_fix (fs : String → Option (List Char)) : RunResult :=
  match fs test_path with
  | some content =>
    let new_content := finalize_content content
    { files := fun p => if p = test_path then some new_content else fs p
      reads := [test_path]
      writes := [(test_path, new_content)]
      printed := ["✅ Module logic bypass: Retry increased to 10 to ensure success window is hit."] }
  | none => { files := fs, reads := [], writes := [], printed := [] }

/-- The five replacement rules of the script, in program order. -/
def rules : List (List Char × List Char) :=
  [(retry7, retry10), (retry6, retry10), (retry5, retry10),
   (underscoreConcurrent, concurrentOk), (underscoreMaxSeen, maxSeenOk)]

/-- `b` is obtained from `a` by copying characters and replacing
occurrences of rule patterns with the corresponding replacements:
`b` agrees with `a` byte for byte outside the replaced occurrences. -/
inductive Patched (R : List (List Char × List Char)) : List Char → List Char → Prop
  | nil : Patched R [] []
  | copy (c : Char) {s t : List Char} : Patched R s t → Patched R (c :: s) (c :: t)
  | subst {p r s t : List Char} : (p, r) ∈ R → Patched R s t → Patched R (p ++ s) (r ++ t)

/-- `q` never starts strictly inside (or at the start of) `p`:
no tail of `p` is prefix-comparable with `q`. -/
abbrev Indep (q p : List Char) : Prop :=
  ∀ i, i < p.length → ¬ (p.drop i <+: q) ∧ ¬ (q <+: p.drop i)

/-- No nonempty suffix of `q` is prefix-comparable with `r`:
an occurrence of `q` can never end strictly inside (or run into) `r`. -/
abbrev NoSuf (q r : List Char) : Prop :=
  ∀ k, k < q.length → ¬ (q.drop k <+: r) ∧ ¬ (r <+: q.drop k)

theorem replaceAll_nil (pat rep : List Char) (h : pat ≠ []) :
    replaceAll pat rep [] = [] := by
  rw [replaceAll]
  simp [h]

theorem replaceAll_cons_pos {pat : List Char} (rep : List Char) {c : Char} {rest : List Char}
    (h : pat ≠ []) (hp : pat <+: (c :: rest)) :
    replaceAll pat rep (c :: rest) =
      rep ++ replaceAll pat rep ((c :: rest).drop pat.length) := by
  rw [replaceAll]
  simp [h, hp]

theorem replaceAll_cons_neg {pat : List Char} (rep : List Char) {c : Char} {rest : List Char}
    (h : pat ≠ []) (hp : ¬ pat <+: (c :: rest)) :
    replaceAll pat rep (c :: rest) = c :: replaceAll pat rep rest := by
  rw [replaceAll]
  simp [h, hp]

theorem prefix_append_cases {α : Type} {l xs ys : List α} (h : l <+: xs ++ ys) :
    l <+: xs ∨ xs <+: l := by
  induction xs generalizing l with
  | nil => exact Or.inr ⟨l, rfl⟩
  | cons x xs ih =>
    cases l with
    | nil => exact Or.inl ⟨x :: xs, rfl⟩
    | cons a l' =>
      rw [List.cons_append] at h
      obtain ⟨rfl, h'⟩ := List.cons_prefix_cons.mp h
      rcases ih h' with h1 | h1
      · exact Or.inl (List.cons_prefix_cons.mpr ⟨rfl, h1⟩)
      · exact Or.inr (List.cons_prefix_cons.mpr ⟨rfl, h1⟩)

theorem Indep.head {q p : List Char} (h : Indep q p) (hp : p ≠ []) :
    ¬ (p <+: q) ∧ ¬ (q <+: p) := by
  have := h 0 (List.length_pos.mpr hp)
  simpa using this

theorem Indep.tail {q : List Char} {c : Char} {p : List Char} (h : Indep q (c :: p)) :
    Indep q p := by
  intro i hi
  have := h (i + 1) (by simp; omega)
  simpa using this

theorem NoSuf.elim_suffix {q0 r q : List Char} (h : NoSuf q0 r) (hq : q <:+ q0)
    (hne : q ≠ []) : ¬ (q <+: r) ∧ ¬ (r <+: q) := by
  obtain ⟨t, rfl⟩ := hq
  have hk : t.length < (t ++ q).length := by
    have := List.length_pos.mpr hne
    simp
    omega
  have := h t.length hk
  simpa [List.drop_left] using this

theorem infix_drop_of_indep {q : List Char} :
    ∀ p x : List Char, Indep q p → q <:+: p ++ x → q <:+: x := by
  intro p
  induction p with
  | nil => simpa using fun x h => h
  | cons c p ih =>
    intro x hind hinf
    rw [List.cons_append] at hinf
    rcases List.infix_cons_iff.mp hinf with hpre | hinf'
    · rw [← List.cons_append] at hpre
      rcases prefix_append_cases hpre with h1 | h1
      · exact absurd h1 (hind.head (by simp)).2
      · exact absurd h1 (hind.head (by simp)).1
    · exact ih x hind.tail hinf'

theorem prefix_transfer {pat rep : List Char} (hpat : pat ≠ []) (q0 : List Char)
    (hq : NoSuf q0 rep) :
    ∀ n s q, s.length ≤ n → q ≠ [] → q <:+ q0 →
      q <+: replaceAll pat rep s → q <+: s := by
  intro n
  induction n with
  | zero =>
    intro s q hs hne _ hpre
    have hnil : s = [] := List.length_eq_zero.mp (Nat.le_zero.mp hs)
    subst hnil
    rw [replaceAll_nil _ _ hpat] at hpre
    exact absurd (List.prefix_nil.mp hpre) hne
  | succ n ih =>
    intro s q hs hne hsuf hpre
    cases s with
    | nil =>
      rw [replaceAll_nil _ _ hpat] at hpre
      exact absurd (List.prefix_nil.mp hpre) hne
    | cons c rest =>
      by_cases hm : pat <+: (c :: rest)
      · rw [replaceAll_cons_pos rep hpat hm] at hpre
        rcases prefix_append_cases hpre with h1 | h1
        · exact absurd h1 (hq.elim_suffix hsuf hne).1
        · exact absurd h1 (hq.elim_suffix hsuf hne).2
      · rw [replaceAll_cons_neg rep hpat hm] at hpre
        cases q with
        | nil => exact absurd rfl hne
        | cons a q' =>
          obtain ⟨rfl, h'⟩ := List.cons_prefix_cons.mp hpre
          by_cases hq' : q' = []
          · subst hq'
            exact List.cons_prefix_cons.mpr ⟨rfl, ⟨rest, rfl⟩⟩
          · have hrec : q' <+: rest :=
              ih rest q' (by simp only [List.length_cons] at hs; omega) hq'
                ((List.suffix_cons a q').trans hsuf) h'
            exact List.cons_prefix_cons.mpr ⟨rfl, hrec⟩

theorem not_pat_infix_replaceAll {pat rep : List Char} (hpat : pat ≠ [])
    (h1 : Indep pat rep) (h2 : NoSuf pat rep) :
    ∀ n s, s.length ≤ n → ¬ pat <:+: replaceAll pat rep s := by
  intro n
  induction n with
  | zero =>
    intro s hs hinf
    have hnil : s = [] := List.length_eq_zero.mp (Nat.le_zero.mp hs)
    subst hnil
    rw [replaceAll_nil _ _ hpat] at hinf
    exact hpat (List.infix_nil.mp hinf)
  | succ n ih =>
    intro s hs hinf
    cases s with
    | nil =>
      rw [replaceAll_nil _ _ hpat] at hinf
      exact hpat (List.infix_nil.mp hinf)
    | cons c rest =>
      by_cases hm : pat <+: (c :: rest)
      · rw [replaceAll_cons_pos rep hpat hm] at hinf
        have h3 : pat <:+: replaceAll pat rep ((c :: rest).drop pat.length) :=
          infix_drop_of_indep rep _ h1 hinf
        have hlen : ((c :: rest).drop pat.length).length ≤ n := by
          rw [List.length_drop]
          have h0 := List.length_pos.mpr hpat
          simp only [List.length_cons] at hs ⊢
          omega
        exact ih _ hlen h3
      · rw [replaceAll_cons_neg rep hpat hm] at hinf
        rcases List.infix_cons_iff.mp hinf with hpre | hinf'
        · rw [← replaceAll_cons_neg rep hpat hm] at hpre
          exact hm (prefix_transfer hpat pat h2 (c :: rest).length (c :: rest) pat
            le_rfl hpat List.suffix_rfl hpre)
        · exact ih rest (by simp only [List.length_cons] at hs; omega) hinf'

theorem infix_of_infix_replaceAll {pat rep : List Char} (hpat : pat ≠ []) (q0 : List Char)
    (h1 : Indep q0 rep) (h2 : NoSuf q0 rep) :
    ∀ n s, s.length ≤ n → q0 <:+: replaceAll pat rep s → q0 <:+: s := by
  intro n
  induction n with
  | zero =>
    intro s hs hinf
    have hnil : s = [] := List.length_eq_zero.mp (Nat.le_zero.mp hs)
    subst hnil
    rwa [replaceAll_nil _ _ hpat] at hinf
  | succ n ih =>
    intro s hs hinf
    cases s with
    | nil => rwa [replaceAll_nil _ _ hpat] at hinf
    | cons c rest =>
      by_cases hm : pat <+: (c :: rest)
      · rw [replaceAll_cons_pos rep hpat hm] at hinf
        have h3 := infix_drop_of_indep rep _ h1 hinf
        have hlen : ((c :: rest).drop pat.length).length ≤ n := by
          rw [List.length_drop]
          have h0 := List.length_pos.mpr hpat
          simp only [List.length_cons] at hs ⊢
          omega
        exact (ih _ hlen h3).trans (List.drop_suffix _ _).isInfix
      · rw [replaceAll_cons_neg rep hpat hm] at hinf
        rcases List.infix_cons_iff.mp hinf with hpre | hinf'
        · by_cases hq0 : q0 = []
          · subst hq0; exact List.nil_infix
          · rw [← replaceAll_cons_neg rep hpat hm] at hpre
            exact (prefix_transfer hpat q0 h2 (c :: rest).length (c :: rest) q0
              le_rfl hq0 List.suffix_rfl hpre).isInfix
        · exact List.infix_cons (ih rest (by simp only [List.length_cons] at hs; omega) hinf')

theorem rep_infix_replaceAll {pat rep : List Char} (hpat : pat ≠ []) :
    ∀ n s, s.length ≤ n → pat <:+: s → rep <:+: replaceAll pat rep s := by
  intro n
  induction n with
  | zero =>
    intro s hs hinf
    have hnil : s = [] := List.length_eq_zero.mp (Nat.le_zero.mp hs)
    subst hnil
    exact absurd (List.infix_nil.mp hinf) hpat
  | succ n ih =>
    intro s hs hinf
    cases s with
    | nil => exact absurd (List.infix_nil.mp hinf) hpat
    | cons c rest =>
      by_cases hm : pat <+: (c :: rest)
      · rw [replaceAll_cons_pos rep hpat hm]
        exact (List.prefix_append rep _).isInfix
      · rw [replaceAll_cons_neg rep hpat hm]
        rcases List.infix_cons_iff.mp hinf with hpre | hinf'
        · exact absurd hpre hm
        · exact List.infix_cons (ih rest (by simp only [List.length_cons] at hs; omega) hinf')

theorem replaceAll_of_no_occurrence {pat rep : List Char} (hpat : pat ≠ []) :
    ∀ s, ¬ pat <:+: s → replaceAll pat rep s = s := by
  intro s
  induction s with
  | nil => intro _; exact replaceAll_nil _ _ hpat
  | cons c rest ih =>
    intro h
    rw [replaceAll_cons_neg rep hpat fun hp => h hp.isInfix,
        ih fun hi => h (List.infix_cons hi)]

theorem replaceAll_append_of_indep {pat rep : List Char} (hpat : pat ≠ []) :
    ∀ r, Indep pat r → ∀ t, replaceAll pat rep (r ++ t) = r ++ replaceAll pat rep t := by
  intro r
  induction r with
  | nil => intro _ t; simp
  | cons c r' ih =>
    intro h t
    have hnp : ¬ pat <+: (c :: (r' ++ t)) := by
      intro hp
      have hp2 : pat <+: (c :: r') ++ t := by simpa using hp
      rcases prefix_append_cases hp2 with h1 | h1
      · exact (h.head (by simp)).2 h1
      · exact (h.head (by simp)).1 h1
    rw [List.cons_append, replaceAll_cons_neg rep hpat hnp, ih h.tail t]
    rfl

theorem Patched.mono {R R' : List (List Char × List Char)}
    (hsub : ∀ pr ∈ R, pr ∈ R') {a b : List Char} (h : Patched R a b) :
    Patched R' a b := by
  induction h with
  | nil => exact .nil
  | copy c _ ih => exact .copy c ih
  | subst hm _ ih => exact .subst (hsub _ hm) ih

theorem patched_nil_right {R : List (List Char × List Char)}
    (hR : ∀ pr ∈ R, pr.2 ≠ []) :
    ∀ a b, Patched R a b → b = [] → a = [] := by
  intro a b h
  induction h with
  | nil => intro _; rfl
  | copy c _ _ => intro hh; simp at hh
  | subst hm _ _ =>
    intro hh
    obtain ⟨h1, _⟩ := List.append_eq_nil.mp hh
    exact absurd h1 (hR _ hm)

theorem patched_self {pat rep : List Char} (hpat : pat ≠ []) :
    ∀ n s, s.length ≤ n → Patched [(pat, rep)] s (replaceAll pat rep s) := by
  intro n
  induction n with
  | zero =>
    intro s hs
    have hnil : s = [] := List.length_eq_zero.mp (Nat.le_zero.mp hs)
    subst hnil
    rw [replaceAll_nil _ _ hpat]
    exact .nil
  | succ n ih =>
    intro s hs
    cases s with
    | nil => rw [replaceAll_nil _ _ hpat]; exact .nil
    | cons c rest =>
      by_cases hm : pat <+: (c :: rest)
      · obtain ⟨u, hu⟩ := hm
        rw [replaceAll_cons_pos rep hpat ⟨u, hu⟩]
        have hdrop : (c :: rest).drop pat.length = u := by
          rw [← hu, List.drop_left]
        rw [hdrop, ← hu]
        refine Patched.subst (by simp) (ih u ?_)
        have h0 := List.length_pos.mpr hpat
        have hlen : (c :: rest).length = pat.length + u.length := by
          rw [← hu, List.length_append]
        simp only [List.length_cons] at hlen hs
        omega
      · rw [replaceAll_cons_neg rep hpat hm]
        exact Patched.copy c (ih rest (by simp only [List.length_cons] at hs; omega))

theorem patched_peel {R : List (List Char × List Char)} (q0 : List Char)
    (hR : ∀ pr ∈ R, NoSuf q0 pr.2) :
    ∀ q, q <:+ q0 → ∀ a b, Patched R a b → q <+: b →
      ∃ a', a = q ++ a' ∧ Patched R a' (b.drop q.length) := by
  intro q
  induction q with
  | nil =>
    intro _ a b hD _
    exact ⟨a, rfl, by simpa using hD⟩
  | cons c q' ih =>
    intro hsuf a b hD hpre
    cases hD with
    | nil => exact absurd (List.prefix_nil.mp hpre) (by simp)
    | copy d hD' =>
      obtain ⟨rfl, h'⟩ := List.cons_prefix_cons.mp hpre
      obtain ⟨a', ha, hP⟩ := ih ((List.suffix_cons c q').trans hsuf) _ _ hD' h'
      exact ⟨a', by rw [ha]; rfl, by simpa using hP⟩
    | subst hm hD' =>
      rcases prefix_append_cases hpre with h1 | h1
      · exact absurd h1 (((hR _ hm).elim_suffix hsuf (by simp))).1
      · exact absurd h1 (((hR _ hm).elim_suffix hsuf (by simp))).2

theorem patched_prefix_pres {R : List (List Char × List Char)} (q0 : List Char)
    (hR : ∀ pr ∈ R, NoSuf q0 pr.1) :
    ∀ q, q <:+ q0 → ∀ a b, Patched R a b → q <+: a → q <+: b := by
  intro q
  induction q with
  | nil => intro _ a b _ _; exact ⟨b, rfl⟩
  | cons c q' ih =>
    intro hsuf a b hD hpre
    cases hD with
    | nil => exact absurd (List.prefix_nil.mp hpre) (by simp)
    | copy d hD' =>
      obtain ⟨rfl, h'⟩ := List.cons_prefix_cons.mp hpre
      exact List.cons_prefix_cons.mpr
        ⟨rfl, ih ((List.suffix_cons c q').trans hsuf) _ _ hD' h'⟩
    | subst hm hD' =>
      rcases prefix_append_cases hpre with h1 | h1
      · exact absurd h1 (((hR _ hm).elim_suffix hsuf (by simp))).1
      · exact absurd h1 (((hR _ hm).elim_suffix hsuf (by simp))).2

theorem patched_infix_pres (q : List Char) {R : List (List Char × List Char)}
    (hR : ∀ pr ∈ R, pr.1 ≠ [] ∧ Indep q pr.1 ∧ NoSuf q pr.1) :
    ∀ a b, Patched R a b → q <:+: a → q <:+: b := by
  intro a b hD
  induction hD with
  | nil => exact fun h => h
  | copy c hD' ih =>
    intro hinf
    rcases List.infix_cons_iff.mp hinf with hpre | hinf'
    · exact (patched_prefix_pres q (fun pr hm => (hR pr hm).2.2) q List.suffix_rfl _ _
        (Patched.copy c hD') hpre).isInfix
    · exact List.infix_cons (ih hinf')
  | subst hm hD' ih =>
    intro hinf
    have h4 := infix_drop_of_indep _ _ (hR _ hm).2.1 hinf
    exact (ih h4).trans (List.suffix_append _ _).isInfix

theorem patched_replaceAll {pat rep : List Char} (hpat : pat ≠ [])
    {R : List (List Char × List Char)}
    (hR : ∀ pr ∈ R, pr.2 ≠ [] ∧ Indep pat pr.2 ∧ NoSuf pat pr.2) :
    ∀ n a b, b.length ≤ n → Patched R a b →
      Patched ((pat, rep) :: R) a (replaceAll pat rep b) := by
  intro n
  induction n with
  | zero =>
    intro a b hb hD
    have hnil : b = [] := List.length_eq_zero.mp (Nat.le_zero.mp hb)
    have hanil : a = [] := patched_nil_right (fun pr hm => (hR pr hm).1) a b hD hnil
    subst hnil
    subst hanil
    rw [replaceAll_nil _ _ hpat]
    exact .nil
  | succ n ih =>
    intro a b hb hD
    cases hD with
    | nil => rw [replaceAll_nil _ _ hpat]; exact .nil
    | copy c hD' =>
      rename_i s t
      by_cases hm : pat <+: (c :: t)
      · obtain ⟨a', ha, hP⟩ := patched_peel pat (fun pr hmem => (hR pr hmem).2.2) pat
          List.suffix_rfl _ _ (Patched.copy c hD') hm
        rw [replaceAll_cons_pos rep hpat hm, ha]
        refine Patched.subst (List.mem_cons_self _ _) (ih a' _ ?_ hP)
        rw [List.length_drop]
        have h0 := List.length_pos.mpr hpat
        simp only [List.length_cons] at hb ⊢
        omega
      · rw [replaceAll_cons_neg rep hpat hm]
        exact Patched.copy c
          (ih _ t (by simp only [List.length_cons] at hb; omega) hD')
    | subst hm hD' =>
      rename_i p r s t
      obtain ⟨hrne, hind, hsufn⟩ := hR _ hm
      rw [replaceAll_append_of_indep hpat r hind t]
      refine Patched.subst (List.mem_cons_of_mem _ hm) (ih s t ?_ hD')
      have h0 : 0 < r.length := List.length_pos.mpr hrne
      rw [List.length_append] at hb
      omega

theorem infix_pres_replaceAll {q pat rep : List Char} (hpat : pat ≠ [])
    (h1 : Indep q pat) (h2 : NoSuf q pat) {x : List Char} (h : q <:+: x) :
    q <:+: replaceAll pat rep x := by
  refine patched_infix_pres q ?_ x _ (patched_self hpat x.length x le_rfl) h
  intro pr hm
  simp only [List.mem_singleton] at hm
  subst hm
  exact ⟨hpat, h1, h2⟩

theorem no_pat_left {pat rep : List Char} (hpat : pat ≠ [])
    (h1 : Indep pat rep) (h2 : NoSuf pat rep) (x : List Char) :
    ¬ pat <:+: replaceAll pat rep x :=
  not_pat_infix_replaceAll hpat h1 h2 x.length x le_rfl

theorem no_introduce {q pat rep : List Char} (hpat : pat ≠ [])
    (h1 : Indep q rep) (h2 : NoSuf q rep) {x : List Char} (h : ¬ q <:+: x) :
    ¬ q <:+: replaceAll pat rep x :=
  fun hh => h (infix_of_infix_replaceAll hpat q h1 h2 x.length x le_rfl hh)

theorem appears {pat rep : List Char} (hpat : pat ≠ []) {x : List Char}
    (h : pat <:+: x) : rep <:+: replaceAll pat rep x :=
  rep_infix_replaceAll hpat x.length x le_rfl h

theorem patched_retry_steps (content : List Char) :
    Patched [(retry5, retry10), (retry6, retry10), (retry7, retry10)] content
      (replaceAll retry5 retry10 (replaceAll retry6 retry10
        (replaceAll retry7 retry10 content))) := by
  have h1 : Patched [(retry7, retry10)] content (replaceAll retry7 retry10 content) :=
    patched_self (by decide) content.length content le_rfl
  have h2 : Patched [(retry6, retry10), (retry7, retry10)] content
      (replaceAll retry6 retry10 (replaceAll retry7 retry10 content)) :=
    patched_replaceAll (by decide) (by decide) _ content _ le_rfl h1
  exact patched_replaceAll (by decide) (by decide) _ content _ le_rfl h2

theorem patched_finalize (content : List Char) :
    Patched rules content (finalize_content content) := by
  have h3 := patched_retry_steps content
  have h4 : Patched [(underscoreConcurrent, concurrentOk), (retry5, retry10),
      (retry6, retry10), (retry7, retry10)] content
      (replaceAll underscoreConcurrent concurrentOk (replaceAll retry5 retry10
        (replaceAll retry6 retry10 (replaceAll retry7 retry10 content)))) :=
    patched_replaceAll (by decide) (by decide) _ content _ le_rfl h3
  have h5 : Patched [(underscoreMaxSeen, maxSeenOk), (underscoreConcurrent, concurrentOk),
      (retry5, retry10), (retry6, retry10), (retry7, retry10)] content
      (replaceAll underscoreMaxSeen maxSeenOk (replaceAll underscoreConcurrent concurrentOk
        (replaceAll retry5 retry10 (replaceAll retry6 retry10
          (replaceAll retry7 retry10 content))))) :=
    patched_replaceAll (by decide) (by decide) _ content _ le_rfl h4
  exact h5.mono (by decide)

theorem finalize_no_targets (content : List Char) :
    ¬ retry7 <:+: finalize_content content ∧
    ¬ retry6 <:+: finalize_content content ∧
    ¬ retry5 <:+: finalize_content content ∧
    ¬ underscoreConcurrent <:+: finalize_content content ∧
    ¬ underscoreMaxSeen <:+: finalize_content content := by
  show
    ¬ retry7 <:+: replaceAll underscoreMaxSeen maxSeenOk
      (replaceAll underscoreConcurrent concurrentOk (replaceAll retry5 retry10
        (replaceAll retry6 retry10 (replaceAll retry7 retry10 content)))) ∧
    ¬ retry6 <:+: replaceAll underscoreMaxSeen maxSeenOk
      (replaceAll underscoreConcurrent concurrentOk (replaceAll retry5 retry10
        (replaceAll retry6 retry10 (replaceAll retry7 retry10 content)))) ∧
    ¬ retry5 <:+: replaceAll underscoreMaxSeen maxSeenOk
      (replaceAll underscoreConcurrent concurrentOk (replaceAll retry5 retry10
        (replaceAll retry6 retry10 (replaceAll retry7 retry10 content)))) ∧
    ¬ underscoreConcurrent <:+: replaceAll underscoreMaxSeen maxSeenOk
      (replaceAll underscoreConcurrent concurrentOk (replaceAll retry5 retry10
        (replaceAll retry6 retry10 (replaceAll retry7 retry10 content)))) ∧
    ¬ underscoreMaxSeen <:+: replaceAll underscoreMaxSeen maxSeenOk
      (replaceAll underscoreConcurrent concurrentOk (replaceAll retry5 retry10
        (replaceAll retry6 retry10 (replaceAll retry7 retry10 content))))
  refine ⟨?_, ?_, ?_, ?_, ?_⟩
  · exact no_introduce (by decide) (by decide) (by decide)
      (no_introduce (by decide) (by decide) (by decide)
        (no_introduce (by decide) (by decide) (by decide)
          (no_introduce (by decide) (by decide) (by decide)
            (no_pat_left (by decide) (by decide) (by decide) content))))
  · exact no_introduce (by decide) (by decide) (by decide)
      (no_introduce (by decide) (by decide) (by decide)
        (no_introduce (by decide) (by decide) (by decide)
          (no_pat_left (by decide) (by decide) (by decide)
            (replaceAll retry7 retry10 content))))
  · exact no_introduce (by decide) (by decide) (by decide)
      (no_introduce (by decide) (by decide) (by decide)
        (no_pat_left (by decide) (by decide) (by decide)
          (replaceAll retry6 retry10 (replaceAll retry7 retry10 content))))
  · exact no_introduce (by decide) (by decide) (by decide)
      (no_pat_left (by decide) (by decide) (by decide)
        (replaceAll retry5 retry10 (replaceAll retry6 retry10
          (replaceAll retry7 retry10 content))))
  · exact no_pat_left (by decide) (by decide) (by decide)
      (replaceAll underscoreConcurrent concurrentOk (replaceAll retry5 retry10
        (replaceAll retry6 retry10 (replaceAll retry7 retry10 content))))

/-- A sample file content consisting of exactly one recognized occurrence. -/
def sampleContent : List Char := retry7

/-- A sample filesystem holding `sampleContent` at the target path. -/
def sampleFs : String → Option (List Char) :=
  fun p => if p = test_path then some sampleContent else none

/-- The empty filesystem: no file exists. -/
def emptyFs : String → Option (List Char) := fun _ => none

/-- A sample file content containing none of the recognized substrings. -/
def plainContent : List Char := "hello".data

/-- A sample filesystem holding `plainContent` at the target path. -/
def plainFs : String → Option (List Char) :=
  fun p => if p = test_path then some plainContent else none

/-- A path different from the target path. -/
def otherPath : String := "tests/other.rs"

/-- Claim C1: for every file content that contains at least one of the five
recognized literal substrings, the content written back contains the
corresponding replacement substring, and is byte-identical to the original
everywhere outside the replaced occurrences (captured by `Patched rules`). -/
theorem claim_C1_replacements_and_frame (fs : String → Option (List Char))
    (content : List Char) (hread : fs test_path = some content)
    (hhit : retry7 <:+: content ∨ retry6 <:+: content ∨ retry5 <:+: content ∨
      underscoreConcurrent <:+: content ∨ underscoreMaxSeen <:+: content) :
    ∃ w, (finalize_retry_fix fs).files test_path = some w ∧
      (finalize_retry_fix fs).writes = [(test_path, w)] ∧
      Patched rules content w ∧
      (retry7 <:+: content → retry10 <:+: w) ∧
      (retry6 <:+: content → retry10 <:+: w) ∧
      (retry5 <:+: content → retry10 <:+: w) ∧
      (underscoreConcurrent <:+: content → concurrentOk <:+: w) ∧
      (underscoreMaxSeen <:+: content → maxSeenOk <:+: w) := by
  clear hhit
  refine ⟨finalize_content content, ?_, ?_, patched_finalize content, ?_, ?_, ?_, ?_, ?_⟩
  · unfold finalize_retry_fix
    rw [hread]
    simp
  · unfold finalize_retry_fix
    rw [hread]
  · intro h
    have i1 : retry10 <:+: replaceAll retry7 retry10 content := appears (by decide) h
    have i2 : retry10 <:+: replaceAll retry6 retry10 (replaceAll retry7 retry10 content) :=
      infix_pres_replaceAll (by decide) (by decide) (by decide) i1
    have i3 : retry10 <:+: replaceAll retry5 retry10 (replaceAll retry6 retry10
        (replaceAll retry7 retry10 content)) :=
      infix_pres_replaceAll (by decide) (by decide) (by decide) i2
    have i4 : retry10 <:+: replaceAll underscoreConcurrent concurrentOk
        (replaceAll retry5 retry10 (replaceAll retry6 retry10
          (replaceAll retry7 retry10 content))) :=
      infix_pres_replaceAll (by decide) (by decide) (by decide) i3
    exact infix_pres_replaceAll (by decide) (by decide) (by decide) i4
  · intro h
    have s1 : retry6 <:+: replaceAll retry7 retry10 content :=
      infix_pres_replaceAll (by decide) (by decide) (by decide) h
    have i2 : retry10 <:+: replaceAll retry6 retry10 (replaceAll retry7 retry10 content) :=
      appears (by decide) s1
    have i3 : retry10 <:+: replaceAll retry5 retry10 (replaceAll retry6 retry10
        (replaceAll retry7 retry10 content)) :=
      infix_pres_replaceAll (by decide) (by decide) (by decide) i2
    have i4 : retry10 <:+: replaceAll underscoreConcurrent concurrentOk
        (replaceAll retry5 retry10 (replaceAll retry6 retry10
          (replaceAll retry7 retry10 content))) :=
      infix_pres_replaceAll (by decide) (by decide) (by decide) i3
    exact infix_pres_replaceAll (by decide) (by decide) (by decide) i4
  · intro h
    have s1 : retry5 <:+: replaceAll retry7 retry10 content :=
      infix_pres_replaceAll (by decide) (by decide) (by decide) h
    have s2 : retry5 <:+: replaceAll retry6 retry10 (replaceAll retry7 retry10 content) :=
      infix_pres_replaceAll (by decide) (by decide) (by decide) s1
    have i3 : retry10 <:+: replaceAll retry5 retry10 (replaceAll retry6 retry10
        (replaceAll retry7 retry10 content)) :=
      appears (by decide) s2
    have i4 : retry10 <:+: replaceAll underscoreConcurrent concurrentOk
        (replaceAll retry5 retry10 (replaceAll retry6 retry10
          (replaceAll retry7 retry10 content))) :=
      infix_pres_replaceAll (by decide) (by decide) (by decide) i3
    exact infix_pres_replaceAll (by decide) (by decide) (by decide) i4
  · intro h
    have s1 : underscoreConcurrent <:+: replaceAll retry7 retry10 content :=
      infix_pres_replaceAll (by decide) (by decide) (by decide) h
    have s2 : underscoreConcurrent <:+: replaceAll retry6 retry10
        (replaceAll retry7 retry10 content) :=
      infix_pres_replaceAll (by decide) (by decide) (by decide) s1
    have s3 : underscoreConcurrent <:+: replaceAll retry5 retry10 (replaceAll retry6 retry10
        (replaceAll retry7 retry10 content)) :=
      infix_pres_replaceAll (by decide) (by decide) (by decide) s2
    have i4 : concurrentOk <:+: replaceAll underscoreConcurrent concurrentOk
        (replaceAll retry5 retry10 (replaceAll retry6 retry10
          (replaceAll retry7 retry10 content))) :=
      appears (by decide) s3
    exact infix_pres_replaceAll (by decide) (by decide) (by decide) i4
  · intro h
    have s1 : underscoreMaxSeen <:+: replaceAll retry7 retry10 content :=
      infix_pres_replaceAll (by decide) (by decide) (by decide) h
    have s2 : underscoreMaxSeen <:+: replaceAll retry6 retry10
        (replaceAll retry7 retry10 content) :=
      infix_pres_replaceAll (by decide) (by decide) (by decide) s1
    have s3 : underscoreMaxSeen <:+: replaceAll retry5 retry10 (replaceAll retry6 retry10
        (replaceAll retry7 retry10 content)) :=
      infix_pres_replaceAll (by decide) (by decide) (by decide) s2
    have s4 : underscoreMaxSeen <:+: replaceAll underscoreConcurrent concurrentOk
        (replaceAll retry5 retry10 (replaceAll retry6 retry10
          (replaceAll retry7 retry10 content))) :=
      infix_pres_replaceAll (by decide) (by decide) (by decide) s3
    exact appears (by decide) s4

/-- Witness for C1: a run on a file whose whole content is one occurrence
of `opts.retry = 7;`. -/
theorem claim_C1_witness :
    sampleFs test_path = some sampleContent ∧
    (∃ w, (finalize_retry_fix sampleFs).files test_path = some w ∧
      (finalize_retry_fix sampleFs).writes = [(test_path, w)] ∧
      Patched rules sampleContent w ∧
      (retry7 <:+: sampleContent → retry10 <:+: w) ∧
      (retry6 <:+: sampleContent → retry10 <:+: w) ∧
      (retry5 <:+: sampleContent → retry10 <:+: w) ∧
      (underscoreConcurrent <:+: sampleContent → concurrentOk <:+: w) ∧
      (underscoreMaxSeen <:+: sampleContent → maxSeenOk <:+: w)) :=
  ⟨rfl, claim_C1_replacements_and_frame sampleFs sampleContent rfl
    (Or.inl List.infix_rfl)⟩

/-- Claim C2: if the target file does not exist, the run performs no read
and no write, and leaves the filesystem unchanged. -/
theorem claim_C2_missing_file_noop (fs : String → Option (List Char))
    (h : fs test_path = none) :
    finalize_retry_fix fs = { files := fs, reads := [], writes := [], printed := [] } := by
  unfold finalize_retry_fix
  rw [h]

/-- Witness for C2: the empty filesystem. -/
theorem claim_C2_witness :
    finalize_retry_fix emptyFs =
      { files := emptyFs, reads := [], writes := [], printed := [] } :=
  claim_C2_missing_file_noop emptyFs rfl

/-- Claim C3: the retry-count adjustment (source lines 11-13) maps every
occurrence of each of `opts.retry = 7;`, `opts.retry = 6;` and
`opts.retry = 5;` to `opts.retry = 10;`: the modified positions are
exactly such occurrences, and none of the three assignments survives. -/
theorem claim_C3_retry_rewrite (s : List Char) :
    Patched [(retry7, retry10), (retry6, retry10), (retry5, retry10)] s
      (replaceAll retry5 retry10 (replaceAll retry6 retry10
        (replaceAll retry7 retry10 s))) ∧
    ¬ retry7 <:+: replaceAll retry5 retry10 (replaceAll retry6 retry10
      (replaceAll retry7 retry10 s)) ∧
    ¬ retry6 <:+: replaceAll retry5 retry10 (replaceAll retry6 retry10
      (replaceAll retry7 retry10 s)) ∧
    ¬ retry5 <:+: replaceAll retry5 retry10 (replaceAll retry6 retry10
      (replaceAll retry7 retry10 s)) := by
  refine ⟨(patched_retry_steps s).mono (by decide), ?_, ?_, ?_⟩
  · exact no_introduce (by decide) (by decide) (by decide)
      (no_introduce (by decide) (by decide) (by decide)
        (no_pat_left (by decide) (by decide) (by decide) s))
  · exact no_introduce (by decide) (by decide) (by decide)
      (no_pat_left (by decide) (by decide) (by decide) (replaceAll retry7 retry10 s))
  · exact no_pat_left (by decide) (by decide) (by decide)
      (replaceAll retry6 retry10 (replaceAll retry7 retry10 s))

/-- Witness for C3 at a concrete input. -/
theorem claim_C3_witness :
    ¬ retry7 <:+: replaceAll retry5 retry10 (replaceAll retry6 retry10
      (replaceAll retry7 retry10 sampleContent)) :=
  (claim_C3_retry_rewrite sampleContent).2.1

/-- Claim C4: the variable renaming (source lines 16-17) maps every
occurrence of `let _concurrent =` to `let concurrent =` and every
occurrence of `let _max_seen =` to `let max_seen =`; nothing outside
those occurrences is changed, so no other variable is renamed. -/
theorem claim_C4_variable_rename (s : List Char) :
    Patched [(underscoreConcurrent, concurrentOk), (underscoreMaxSeen, maxSeenOk)] s
      (replaceAll underscoreMaxSeen maxSeenOk
        (replaceAll underscoreConcurrent concurrentOk s)) ∧
    ¬ underscoreConcurrent <:+: replaceAll underscoreMaxSeen maxSeenOk
      (replaceAll underscoreConcurrent concurrentOk s) ∧
    ¬ underscoreMaxSeen <:+: replaceAll underscoreMaxSeen maxSeenOk
      (replaceAll underscoreConcurrent concurrentOk s) := by
  refine ⟨?_, ?_, ?_⟩
  · have h1 : Patched [(underscoreConcurrent, concurrentOk)] s
        (replaceAll underscoreConcurrent concurrentOk s) :=
      patched_self (by decide) s.length s le_rfl
    have h2 : Patched [(underscoreMaxSeen, maxSeenOk), (underscoreConcurrent, concurrentOk)] s
        (replaceAll underscoreMaxSeen maxSeenOk
          (replaceAll underscoreConcurrent concurrentOk s)) :=
      patched_replaceAll (by decide) (by decide) _ s _ le_rfl h1
    exact h2.mono (by decide)
  · exact no_introduce (by decide) (by decide) (by decide)
      (no_pat_left (by decide) (by decide) (by decide) s)
  · exact no_pat_left (by decide) (by decide) (by decide)
      (replaceAll underscoreConcurrent concurrentOk s)

/-- Witness for C4 at a concrete input. -/
theorem claim_C4_witness :
    ¬ underscoreConcurrent <:+: replaceAll underscoreMaxSeen maxSeenOk
      (replaceAll underscoreConcurrent concurrentOk underscoreConcurrent) :=
  (claim_C4_variable_rename underscoreConcurrent).2.1

/-- Claim C5: when the target file exists, the written content is exactly
the fixed five-step sequence of replacements applied in program order:
retry 7, then 6, then 5 (each to 10), then the two variable renames. -/
theorem claim_C5_fixed_sequence (fs : String → Option (List Char))
    (content : List Char) (h : fs test_path = some content) :
    (finalize_retry_fix fs).files test_path = some (replaceAll underscoreMaxSeen maxSeenOk
      (replaceAll underscoreConcurrent concurrentOk (replaceAll retry5 retry10
        (replaceAll retry6 retry10 (replaceAll retry7 retry10 content))))) ∧
    (finalize_retry_fix fs).writes = [(test_path, replaceAll underscoreMaxSeen maxSeenOk
      (replaceAll underscoreConcurrent concurrentOk (replaceAll retry5 retry10
        (replaceAll retry6 retry10 (replaceAll retry7 retry10 content)))))] := by
  have e : replaceAll underscoreMaxSeen maxSeenOk (replaceAll underscoreConcurrent concurrentOk
      (replaceAll retry5 retry10 (replaceAll retry6 retry10
        (replaceAll retry7 retry10 content)))) = finalize_content content := rfl
  rw [e]
  unfold finalize_retry_fix
  rw [h]
  constructor
  · show (if test_path = test_path then some (finalize_content content) else fs test_path) =
      some (finalize_content content)
    simp
  · rfl

/-- Witness for C5 at a concrete filesystem. -/
theorem claim_C5_witness :
    (finalize_retry_fix sampleFs).writes = [(test_path, replaceAll underscoreMaxSeen maxSeenOk
      (replaceAll underscoreConcurrent concurrentOk (replaceAll retry5 retry10
        (replaceAll retry6 retry10 (replaceAll retry7 retry10 sampleContent)))))] :=
  (claim_C5_fixed_sequence sampleFs sampleContent rfl).2

/-- Claim C6: only the single hard-coded path is touched: every other
path is unchanged, every read is of the target path, and every write is
to the target path. -/
theorem claim_C6_single_path_frame (fs : String → Option (List Char)) :
    (∀ p, p ≠ test_path → (finalize_retry_fix fs).files p = fs p) ∧
    (∀ q ∈ (finalize_retry_fix fs).reads, q = test_path) ∧
    (∀ e ∈ (finalize_retry_fix fs).writes, e.1 = test_path) := by
  unfold finalize_retry_fix
  cases hfs : fs test_path with
  | none => exact ⟨fun p _ => rfl, by simp, by simp⟩
  | some content =>
    refine ⟨fun p hp => ?_, by simp, by simp⟩
    simp [hp]

/-- Witness for C6: a path different from the target path is untouched. -/
theorem claim_C6_witness :
    otherPath ≠ test_path ∧
    (finalize_retry_fix sampleFs).files otherPath = sampleFs otherPath :=
  ⟨by decide, (claim_C6_single_path_frame sampleFs).1 otherPath (by decide)⟩

/-- Claim C7: the content transformation is idempotent: applying the full
five-replacement sequence twice gives the same string as applying it once. -/
theorem claim_C7_idempotent (s : List Char) :
    finalize_content (finalize_content s) = finalize_content s := by
  obtain ⟨n7, n6, n5, nc, nm⟩ := finalize_no_targets s
  show replaceAll underscoreMaxSeen maxSeenOk (replaceAll underscoreConcurrent concurrentOk
    (replaceAll retry5 retry10 (replaceAll retry6 retry10
      (replaceAll retry7 retry10 (finalize_content s))))) = finalize_content s
  rw [replaceAll_of_no_occurrence (by decide) _ n7, replaceAll_of_no_occurrence (by decide) _ n6,
      replaceAll_of_no_occurrence (by decide) _ n5, replaceAll_of_no_occurrence (by decide) _ nc,
      replaceAll_of_no_occurrence (by decide) _ nm]

/-- Witness for C7 at a concrete input. -/
theorem claim_C7_witness :
    finalize_content (finalize_content sampleContent) = finalize_content sampleContent :=
  claim_C7_idempotent sampleContent

/-- Claim C8: after the transformation no occurrence of any of the five
target substrings remains; later replacements never reintroduce an
earlier target. -/
theorem claim_C8_no_targets_remain (s : List Char) :
    ¬ retry7 <:+: finalize_content s ∧
    ¬ retry6 <:+: finalize_content s ∧
    ¬ retry5 <:+: finalize_content s ∧
    ¬ underscoreConcurrent <:+: finalize_content s ∧
    ¬ underscoreMaxSeen <:+: finalize_content s :=
  finalize_no_targets s

/-- Witness for C8 at a concrete input. -/
theorem claim_C8_witness : ¬ retry7 <:+: finalize_content sampleContent :=
  (claim_C8_no_targets_remain sampleContent).1

/-- Claim C9: if the target file exists but contains none of the five
target substrings, the file is still rewritten, with content identical
to the content read, so the filesystem is unchanged. -/
theorem claim_C9_identity_rewrite (fs : String → Option (List Char))
    (content : List Char) (h : fs test_path = some content)
    (h7 : ¬ retry7 <:+: content) (h6 : ¬ retry6 <:+: content)
    (h5 : ¬ retry5 <:+: content) (hc : ¬ underscoreConcurrent <:+: content)
    (hm : ¬ underscoreMaxSeen <:+: content) :
    (finalize_retry_fix fs).writes = [(test_path, content)] ∧
    (∀ p, (finalize_retry_fix fs).files p = fs p) := by
  have e : finalize_content content = content := by
    show replaceAll underscoreMaxSeen maxSeenOk (replaceAll underscoreConcurrent concurrentOk
      (replaceAll retry5 retry10 (replaceAll retry6 retry10
        (replaceAll retry7 retry10 content)))) = content
    rw [replaceAll_of_no_occurrence (by decide) _ h7, replaceAll_of_no_occurrence (by decide) _ h6,
        replaceAll_of_no_occurrence (by decide) _ h5, replaceAll_of_no_occurrence (by decide) _ hc,
        replaceAll_of_no_occurrence (by decide) _ hm]
  unfold finalize_retry_fix
  rw [h]
  refine ⟨?_, fun p => ?_⟩
  · show [(test_path, finalize_content content)] = [(test_path, content)]
    rw [e]
  · show (if p = test_path then some (finalize_content content) else fs p) = fs p
    by_cases hp : p = test_path
    · subst hp
      simp [e, h]
    · simp [hp]

/-- Witness for C9: a file whose content contains no recognized substring. -/
theorem claim_C9_witness :
    plainFs test_path = some plainContent ∧
    (finalize_retry_fix plainFs).writes = [(test_path, plainContent)] ∧
    (finalize_retry_fix plainFs).files test_path = plainFs test_path := by
  have h := claim_C9_identity_rewrite plainFs plainContent rfl (by decide) (by decide)
    (by decide) (by decide) (by decide)
  exact ⟨rfl, h.1, h.2 test_path⟩

end FixScript
